import Mathlib

/-!
Verification development for the conversational-AI agent router
(`conversational-ai-agent-router`): a stateful reverse proxy that assigns
clients to backend workers, keeps all routing state in a Redis-compatible
coordination store, caps live sessions per backend and expires stale
mappings by TTL.

The store is modelled as association lists (string keys to expiring string
values, and sorted sets as lists of member/score entries).  The routing
state manager (`getOrAssignBackend`, `getClientBackend`,
`getLeastLoadedBackend`, `getBackendStatus`, `AddActiveRequestToBackend`,
`RemoveActiveRequestFromBackend`), the request handlers (`HandleStart`,
`HandleStop`, `validateAndHandleStart`, `validateAndHandleStop`), the
header middleware (`CORShttpHeaders`, `isOriginAllowed`) and the route
registration (`RegisterRoutes`, `setupRouter`, `Ping`) are translated
directly from the Go source.  Times are integers (milliseconds), statuses
natural numbers, JSON objects association lists.
-/

namespace Router

/-- One member of a Redis sorted set: a member string with its score
(milliseconds since epoch in this application). -/
structure ZEntry where
  member : String
  score : Int
deriving DecidableEq, Repr

/-- A lookup in an association list with string keys: the value at the
first entry whose key matches, if any. -/
def alookup {α : Type} : List (String × α) → String → Option α
  | [], _ => none
  | (k, v) :: rest, key => if k == key then some v else alookup rest key

/-- Remove every entry with the given key from an association list. -/
def aremove {α : Type} : List (String × α) → String → List (String × α)
  | [], _ => []
  | (k, v) :: rest, key =>
    if k == key then aremove rest key else (k, v) :: aremove rest key

/-- Overwrite the binding of a key in an association list. -/
def aset {α : Type} (l : List (String × α)) (k : String) (v : α) : List (String × α) :=
  (k, v) :: aremove l k

/-- Remove every entry of a sorted set whose member equals `m`. -/
def zremove : List ZEntry → String → List ZEntry
  | [], _ => []
  | e :: rest, m => if e.member == m then zremove rest m else e :: zremove rest m

/-- The coordination store: expiring string keys (value and absolute expiry
time in milliseconds) plus sorted sets. -/
structure RedisState where
  kv : List (String × String × Int)
  zsets : List (String × List ZEntry)
deriving DecidableEq, Repr

/-- The empty store. -/
def RedisState.empty : RedisState := ⟨[], []⟩

/-- Redis `GET` at time `now`: a present key answers its value through
its expiry instant — Redis treats a key as expired only strictly after
its expiry time (`keyIsExpired` tests `now > when`) — and an expired or
absent key answers nothing (`redis.Nil`). -/
def kvGet (st : RedisState) (now : Int) (key : String) : Option String :=
  match alookup st.kv key with
  | some (v, exp) => if now ≤ exp then some v else none
  | none => none

/-- Redis `SET` with expiry `ttl` performed at time `now`. -/
def kvSet (st : RedisState) (now ttl : Int) (key val : String) : RedisState :=
  { st with kv := aset st.kv key (val, now + ttl) }

/-- The entries of the sorted set stored at `key` (empty if absent). -/
def zsetOf (st : RedisState) (key : String) : List ZEntry :=
  (alookup st.zsets key).getD []

/-- Redis `ZADD`: add a member with its score, replacing any previous
entry for the same member. -/
def zadd (st : RedisState) (key : String) (e : ZEntry) : RedisState :=
  { st with zsets := aset st.zsets key (e :: zremove (zsetOf st key) e.member) }

/-- Redis `ZREM`: remove a member from a sorted set (a no-op when the
member is absent). -/
def zrem (st : RedisState) (key member : String) : RedisState :=
  { st with zsets := aset st.zsets key (zremove (zsetOf st key) member) }

/-- Redis `ZCOUNT key lo hi`: the number of entries whose score lies in
the inclusive range `[lo, hi]`. -/
def zcount (st : RedisState) (key : String) (lo hi : Int) : Nat :=
  ((zsetOf st key).filter (fun e => decide (lo ≤ e.score) && decide (e.score ≤ hi))).length

/-- The forward-mapping key `client:{clientID}` of the data schema. -/
def clientKey (c : String) : String := "client:" ++ c

/-- The active-set key `backend:{address}` of the data schema. -/
def backendKey (b : String) : String := "backend:" ++ b

/-! ### Routing state manager (from `db_ops.go` / `part_003`) -/

/-- Outcome of a Redis `GET` as seen by the Go client: a value, the
`redis.Nil` key-missing sentinel, or another error. -/
inductive GetResult where
  | found (v : String)
  | missing
  | err (e : String)
deriving DecidableEq, Repr

/-- The `GET client:{clientID}` outcome computed from the store state (in
the pure model the store itself never fails). -/
def stateGet (st : RedisState) (now : Int) (clientID : String) : GetResult :=
  match kvGet st now (clientKey clientID) with
  | some v => GetResult.found v
  | none => GetResult.missing

/-- `getOrAssignBackend`: return the mapped backend when the forward
mapping is present; on `redis.Nil` fall back to the least-loaded
selection; surface any other store error. -/
def getOrAssignBackend (g : GetResult) (select : Except String String) :
    Except String String :=
  match g with
  | GetResult.found v => Except.ok v
  | GetResult.missing =>
    match select with
    | Except.ok b => Except.ok b
    | Except.error e => Except.error ("error getting least loaded backend: " ++ e)
  | GetResult.err e => Except.error ("error getting backend: " ++ e)

/-- `getClientBackend`: return the mapped backend; any failure (including
`redis.Nil`, whose message is "redis: nil") is an error. -/
def getClientBackend (g : GetResult) : Except String String :=
  match g with
  | GetResult.found v => Except.ok v
  | GetResult.missing => Except.error ("error getting client backend: redis: nil")
  | GetResult.err e => Except.error ("error getting client backend: " ++ e)

/-- `getBackendStatus`: `ZCOUNT backend:{ip} (now - TTL) now`, the number
of live entries of the backend's active set. -/
def getBackendStatus (st : RedisState) (now ttl : Int) (backendIP : String) : Int :=
  (zcount st (backendKey backendIP) (now - ttl) now : Int)

/-- The selection loop of `getLeastLoadedBackend`: fold over the backend
list keeping the smallest count seen so far (strict improvement only, so
ties keep the earlier backend); a backend whose count query fails is
skipped. -/
def selectLoop (status : String → Except String Int) :
    List String → Int → String → String
  | [], _, best => best
  | ip :: rest, minReq, best =>
    match status ip with
    | Except.error _ => selectLoop status rest minReq best
    | Except.ok cnt =>
      if cnt < minReq then selectLoop status rest cnt ip
      else selectLoop status rest minReq best

/-- `getLeastLoadedBackend`: scan the backends with the running minimum
seeded at `MaxRequestsPerBackend`; when no backend improves on it, fail
with "no available backend found". -/
def getLeastLoadedBackend (status : String → Except String Int)
    (backendIPs : List String) (maxRequestsPerBackend : Int) : Except String String :=
  let leastLoadedIP := selectLoop status backendIPs maxRequestsPerBackend ""
  if leastLoadedIP == "" then Except.error ("no available backend found")
  else Except.ok leastLoadedIP

/-- `AddActiveRequestToBackend`: the pipelined
`SET client:{clientID} backendIP EX TTL` plus
`ZADD backend:{backendIP} now clientID`. -/
def AddActiveRequestToBackend (st : RedisState) (now ttl : Int)
    (backendIP clientID : String) : RedisState :=
  zadd (kvSet st now ttl (clientKey clientID) backendIP)
    (backendKey backendIP) ⟨clientID, now⟩

/-- `RemoveActiveRequestFromBackend`: `ZREM backend:{backendIP} clientID`. -/
def RemoveActiveRequestFromBackend (st : RedisState) (backendIP clientID : String) :
    RedisState :=
  zrem st (backendKey backendIP) clientID

/-! ### JSON objects and HTTP responses -/

/-- A JSON value, opaque except for strings (the only values the router
itself produces). -/
inductive JVal where
  | str (s : String)
  | num (n : Int)
  | raw (r : String)
deriving DecidableEq, Repr

/-- A JSON object, as the Go `map[string]interface\x7b\x7d` the handlers
unmarshal into. -/
abbrev JObj := List (String × JVal)

/-- Set a field of a JSON object, overwriting any previous binding. -/
def setField (o : JObj) (k : String) (v : JVal) : JObj := aset o k v

/-- Read a field of a JSON object. -/
def getFieldJ (o : JObj) (k : String) : Option JVal := alookup o k

/-- An HTTP response produced by the router: status code and JSON body. -/
structure HttpResponse where
  status : Nat
  body : JObj
deriving DecidableEq, Repr

/-- The `gin.H` error body with an "error" and a "details" field. -/
def errBody (e d : String) : JObj :=
  [("error", JVal.str e), ("details", JVal.str d)]

/-- Outcome of the proxied upstream HTTP call: transport failure,
unreadable body, unparsable body, or a parsed JSON object, the last three
carrying the upstream status code. -/
inductive Upstream where
  | transportError (msg : String)
  | readError (msg : String) (status : Nat)
  | parseError (msg : String) (status : Nat)
  | jsonResponse (status : Nat) (body : JObj)
deriving DecidableEq, Repr

/-! ### Request handlers (from `handle_start.go` / `handle_stop.go`) -/

/-- `HandleStart`: assign a backend, call its `/start_agent`, inject the
`clientID` field into the upstream JSON and answer with the upstream
status; only after a 2xx record the active request (`recordOk` abstracts
whether the recording pipeline succeeds; on failure it is only logged, the
state is left as it was). -/
def HandleStart (st : RedisState) (now ttl : Int) (clientID : String)
    (select : Except String String) (upstream : String → Upstream)
    (recordOk : Bool) : HttpResponse × RedisState :=
  match getOrAssignBackend (stateGet st now clientID) select with
  | Except.error e => (⟨500, errBody ("Error assigning backend") e⟩, st)
  | Except.ok backendIP =>
    match upstream backendIP with
    | Upstream.transportError msg =>
      (⟨502, errBody ("Failed to reach backend service") msg⟩, st)
    | Upstream.readError msg _ =>
      (⟨500, errBody ("Error reading response body") msg⟩, st)
    | Upstream.parseError msg _ =>
      (⟨500, errBody ("Error parsing response body") msg⟩, st)
    | Upstream.jsonResponse status body =>
      let resp : HttpResponse := ⟨status, setField body "clientID" (JVal.str clientID)⟩
      if 200 ≤ status ∧ status < 300 then
        (resp, if recordOk then AddActiveRequestToBackend st now ttl backendIP clientID else st)
      else (resp, st)

/-- `HandleStop`: look up the client's backend (an absent mapping is an
error), call its `/stop_agent`, inject `clientID`, answer with the
upstream status; only after a 2xx remove the client from the backend's
active set. -/
def HandleStop (st : RedisState) (now : Int) (clientID : String)
    (upstream : String → Upstream) : HttpResponse × RedisState :=
  match getClientBackend (stateGet st now clientID) with
  | Except.error e => (⟨500, errBody ("Error retrieving backend") e⟩, st)
  | Except.ok backendIP =>
    match upstream backendIP with
    | Upstream.transportError msg =>
      (⟨502, errBody ("Failed to reach backend service") msg⟩, st)
    | Upstream.readError msg _ =>
      (⟨500, errBody ("Error reading response body") msg⟩, st)
    | Upstream.parseError msg _ =>
      (⟨500, errBody ("Error parsing response body") msg⟩, st)
    | Upstream.jsonResponse status body =>
      let resp : HttpResponse := ⟨status, setField body "clientID" (JVal.str clientID)⟩
      if 200 ≤ status ∧ status < 300 then
        (resp, RemoveActiveRequestFromBackend st backendIP clientID)
      else (resp, st)

/-! ### Request validation (from `proxy_service.go` and `AgentRequest`) -/

/-- The `AgentRequest` body: `channel_name` and `uid`, both carrying a
`binding:"required"` tag. -/
structure AgentRequest where
  channel_name : String
  uid : Int
deriving DecidableEq, Repr

/-- `ShouldBindJSON` for `AgentRequest` with gin's `binding:"required"`
semantics: a field absent from the JSON unmarshals to its zero value, and
the `required` validator rejects zero values, so an empty or missing
`channel_name`, and a missing or zero `uid`, fail the binding. -/
def ShouldBindJSON (channelName : Option String) (uid : Option Int) :
    Option AgentRequest :=
  let ch := channelName.getD ""
  let u := uid.getD 0
  if ch == "" || u == 0 then none else some ⟨ch, u⟩

/-- `AgentRequest.Validate`: only `channel_name` is re-checked. -/
def AgentRequest.Validate (r : AgentRequest) : Option String :=
  if r.channel_name == "" then some ("channel_name is required") else none

/-- `validateAndHandleStart`: bind and validate the body, then run
`HandleStart`. -/
def validateAndHandleStart (st : RedisState) (now ttl : Int)
    (channelName : Option String) (uid : Option Int) (clientID : String)
    (select : Except String String) (upstream : String → Upstream)
    (recordOk : Bool) : HttpResponse × RedisState :=
  match ShouldBindJSON channelName uid with
  | none => (⟨400, [("error", JVal.str "Invalid request body")]⟩, st)
  | some req =>
    match req.Validate with
    | some msg => (⟨400, [("error", JVal.str msg)]⟩, st)
    | none => HandleStart st now ttl clientID select upstream recordOk

/-- `validateAndHandleStop`: bind and validate the body, then run
`HandleStop`. -/
def validateAndHandleStop (st : RedisState) (now : Int)
    (channelName : Option String) (uid : Option Int) (clientID : String)
    (upstream : String → Upstream) : HttpResponse × RedisState :=
  match ShouldBindJSON channelName uid with
  | none => (⟨400, [("error", JVal.str "Invalid request body")]⟩, st)
  | some req =>
    match req.Validate with
    | some msg => (⟨400, [("error", JVal.str msg)]⟩, st)
    | none => HandleStop st now clientID upstream

/-! ### Header middleware (from `http_headers.go`) -/

/-- Split a character list at commas, as Go's `strings.Split (s, ",")`:
the empty string yields `[""]`, and consecutive commas yield empty
entries. -/
def splitCommaAux : List Char → List String
  | [] => [""]
  | ch :: rest =>
    if ch = ',' then "" :: splitCommaAux rest
    else
      match splitCommaAux rest with
      | [] => [String.mk [ch]]
      | s :: ss => String.mk (ch :: s.data) :: ss

/-- `strings.Split (allowOrigin, ",")`: the comma-separated allow-list
entries. -/
def splitComma (s : String) : List String := splitCommaAux s.data

/-- `isOriginAllowed`: a `*` allow-list admits every origin; otherwise the
origin must equal one of the comma-separated entries verbatim. -/
def isOriginAllowed (allowOrigin origin : String) : Bool :=
  if allowOrigin == "*" then true
  else (splitComma allowOrigin).any (fun allowed => origin == allowed)

/-- The CORS response headers set on an allowed request, reflecting the
request's origin. -/
def corsHeaders (origin : String) : List (String × String) :=
  [("Access-Control-Allow-Origin", origin),
   ("Access-Control-Allow-Methods", "GET, POST, DELETE, PATCH, OPTIONS"),
   ("Access-Control-Allow-Headers", "Origin, Content-Type, X-CSRF-Token, X-Requested-With, Accept, Accept-Version, Content-Length, Content-MD5, Date, X-Api-Version, X-Client-Id, Authorization"),
   ("Access-Control-Allow-Credentials", "true")]

/-- Outcome of the CORS middleware on one request: rejection with a JSON
body, a bodiless preflight answer, or passing the request on to the
handler with the headers set. -/
inductive CorsOutcome where
  | rejected (status : Nat) (body : JObj)
  | preflight (status : Nat) (headers : List (String × String))
  | passed (headers : List (String × String))
deriving DecidableEq, Repr

/-- `CORShttpHeaders`: reject a disallowed origin with 403, answer an
allowed `OPTIONS` preflight with 204 and no body, and otherwise set the
CORS headers and continue. -/
def CORShttpHeaders (allowOrigin : String) (method origin : String) : CorsOutcome :=
  if !(isOriginAllowed allowOrigin origin) then
    CorsOutcome.rejected 403 [("error", JVal.str "Origin not allowed")]
  else if method == "OPTIONS" then CorsOutcome.preflight 204 (corsHeaders origin)
  else CorsOutcome.passed (corsHeaders origin)

/-! ### Route registration (from `RegisterRoutes` and `setupServer`) -/

/-- A registered route with the middleware chain attached to it. -/
structure Route where
  method : String
  path : String
  middlewares : List String
deriving DecidableEq, Repr

/-- A gin engine: middleware installed so far and routes registered so
far.  As in gin, a route registered by `handle` captures the middleware
installed before its registration. -/
structure Engine where
  middlewares : List String
  routes : List Route
deriving DecidableEq, Repr

/-- `router.Use`: install a middleware on the engine. -/
def Engine.use (e : Engine) (m : String) : Engine :=
  { e with middlewares := e.middlewares ++ [m] }

/-- Register a route; it runs behind the middleware installed so far. -/
def Engine.handle (e : Engine) (method path : String) : Engine :=
  { e with routes := e.routes ++ [⟨method, path, e.middlewares⟩] }

/-- `RegisterRoutes`: install the CORS, no-cache and timestamp middleware,
then register `/start_agent`, `/stop_agent` and `/health`. -/
def RegisterRoutes (e : Engine) : Engine :=
  let e1 := ((e.use "CORShttpHeaders").use "NoCache").use "Timestamp"
  let e2 := e1.handle "POST" "/start_agent"
  let e3 := e2.handle "POST" "/stop_agent"
  e3.handle "GET" "/health"

/-- `setupServer`'s route construction: `RegisterRoutes` on a fresh
engine, then `router.GET ("/ping", Ping)`. -/
def setupRouter : Engine :=
  (RegisterRoutes { middlewares := [], routes := [] }).handle "GET" "/ping"

/-- The `Ping` handler: status 200 with body containing message "pong". -/
def Ping : HttpResponse := ⟨200, [("message", JVal.str "pong")]⟩

/-! ### Sequential traces of successful start/stop operations -/

/-- The forward-mapping record of a client kept in the store, expired or
not: backend address and absolute expiry time. -/
def mappingRec (st : RedisState) (c : String) : Option (String × Int) :=
  alookup st.kv (clientKey c)

/-- Client `c` has an entry with score `s` in backend `b`'s active set. -/
def hasEntry (st : RedisState) (b c : String) (s : Int) : Prop :=
  ZEntry.mk c s ∈ zsetOf st (backendKey b)

instance (st : RedisState) (b c : String) (s : Int) : Decidable (hasEntry st b c s) :=
  inferInstanceAs (Decidable (ZEntry.mk c s ∈ zsetOf st (backendKey b)))

/-- An event of a sequential run: a successful start at time `t` for
client `c` (with `sel` the backend the least-loaded selection would yield
if the forward mapping is absent), or a stop at time `t` for client `c`. -/
inductive Event where
  | start (t : Int) (c : String) (sel : String)
  | stop (t : Int) (c : String)
deriving DecidableEq, Repr

/-- The time at which an event happens. -/
def Event.time : Event → Int
  | Event.start t _ _ => t
  | Event.stop t _ => t

/-- State change of a successful `/start_agent` (upstream 2xx, recording
pipeline succeeds): record the active request on the sticky backend if the
forward mapping is alive, else on the freshly selected one. -/
def stepStart (st : RedisState) (ttl t : Int) (c sel : String) : RedisState :=
  match kvGet st t (clientKey c) with
  | some b0 => AddActiveRequestToBackend st t ttl b0 c
  | none => AddActiveRequestToBackend st t ttl sel c

/-- State change of a `/stop_agent` call: remove the client from the
mapped backend's active set when the mapping is alive; a stop for an
unmapped client fails with 500 and leaves the store unchanged. -/
def stepStop (st : RedisState) (t : Int) (c : String) : RedisState :=
  match kvGet st t (clientKey c) with
  | some b => RemoveActiveRequestFromBackend st b c
  | none => st

/-- Run a list of events against the store. -/
def runEvents (ttl : Int) : RedisState → List Event → RedisState
  | st, [] => st
  | st, Event.start t c sel :: rest => runEvents ttl (stepStart st ttl t c sel) rest
  | st, Event.stop t c :: rest => runEvents ttl (stepStop st t c) rest

/-- Well-formed traces: the events happen sequentially, at times that
never decrease (starting from `t0`). -/
inductive Wf (ttl : Int) : Int → RedisState → List Event → Prop
  | nil (t0 : Int) (st : RedisState) : Wf ttl t0 st []
  | start (t0 t : Int) (st : RedisState) (c sel : String) (rest : List Event)
      (hle : t0 ≤ t)
      (hrest : Wf ttl t (stepStart st ttl t c sel) rest) :
      Wf ttl t0 st (Event.start t c sel :: rest)
  | stop (t0 t : Int) (st : RedisState) (c : String) (rest : List Event)
      (hle : t0 ≤ t) (hrest : Wf ttl t (stepStop st t c) rest) :
      Wf ttl t0 st (Event.stop t c :: rest)

/-- The inductive state invariant behind single-backend liveness: every
active-set entry of a client predates the current time and the client's
forward-mapping record, which was written at `e - ttl`; entries on a
backend other than the recorded one are older than a full TTL window
before that write. -/
def Inv (ttl tcur : Int) (st : RedisState) : Prop :=
  (∀ c b s, hasEntry st b c s →
      s ≤ tcur ∧ ∃ bm e, mappingRec st c = some (bm, e) ∧ s ≤ e - ttl ∧
        (b ≠ bm → s + ttl < e - ttl))
  ∧ (∀ c bm e, mappingRec st c = some (bm, e) → e ≤ tcur + ttl)

/-- The selection loop specialised to a count function whose queries all
succeed (the pure reading of `selectLoop`). -/
def selectGo (count : String → Int) : List String → Int → String → String
  | [], _, best => best
  | ip :: rest, minReq, best =>
    if count ip < minReq then selectGo count rest (count ip) ip
    else selectGo count rest minReq best

/-- The count function `getLeastLoadedBackend` consults on a given store
state: every count query succeeds and answers the live count. -/
def pureStatus (st : RedisState) (now ttl : Int) : String → Except String Int :=
  fun ip => Except.ok (getBackendStatus st now ttl ip)

/-! ### Association-list and sorted-set lemmas -/

theorem alookup_aset_same {α : Type} (l : List (String × α)) (k : String) (v : α) :
    alookup (aset l k v) k = some v := by
  simp [alookup, aset]

theorem alookup_aremove_other {α : Type} (l : List (String × α)) (k k' : String)
    (h : k' ≠ k) : alookup (aremove l k) k' = alookup l k' := by
  induction l with
  | nil => rfl
  | cons a rest ih =>
    obtain ⟨ak, av⟩ := a
    by_cases hk : ak = k
    · have hk' : (ak == k') = false := by
        simp only [beq_eq_false_iff_ne]
        exact fun hh => h (hh ▸ hk)
      simp [aremove, alookup, hk, hk', ih, Ne.symm h]
    · simp only [aremove, beq_iff_eq, hk, if_false]
      by_cases hk2 : ak = k'
      · simp [alookup, hk2]
      · simp [alookup, hk2, ih]

theorem alookup_aset_other {α : Type} (l : List (String × α)) (k k' : String) (v : α)
    (h : k' ≠ k) : alookup (aset l k v) k' = alookup l k' := by
  have hk : (k == k') = false := by
    simp only [beq_eq_false_iff_ne]
    exact fun hh => h hh.symm
  simp [aset, alookup, hk, alookup_aremove_other l k k' h]

theorem mem_zremove {l : List ZEntry} {m : String} {x : ZEntry} :
    x ∈ zremove l m ↔ x ∈ l ∧ x.member ≠ m := by
  induction l with
  | nil => simp [zremove]
  | cons e rest ih =>
    by_cases he : e.member = m
    · simp only [zremove, he, beq_self_eq_true, if_true, ih, List.mem_cons]
      constructor
      · rintro ⟨hx, hm⟩; exact ⟨Or.inr hx, hm⟩
      · rintro ⟨hx | hx, hm⟩
        · exact absurd (hx ▸ he) hm
        · exact ⟨hx, hm⟩
    · have : (e.member == m) = false := by simpa using he
      simp only [zremove, this, if_neg, List.mem_cons, ih, Bool.false_eq_true, if_false]
      constructor
      · rintro (hx | ⟨hx, hm⟩)
        · exact ⟨Or.inl hx, hx ▸ he⟩
        · exact ⟨Or.inr hx, hm⟩
      · rintro ⟨hx | hx, hm⟩
        · exact Or.inl hx
        · exact Or.inr ⟨hx, hm⟩

theorem zremove_of_all_ne {l : List ZEntry} {m : String}
    (h : ∀ x ∈ l, x.member ≠ m) : zremove l m = l := by
  induction l with
  | nil => rfl
  | cons e rest ih =>
    have he : (e.member == m) = false := by
      simpa using h e (List.mem_cons_self e rest)
    simp only [zremove, he, Bool.false_eq_true, if_false]
    rw [ih (fun x hx => h x (List.mem_cons_of_mem e hx))]

theorem zremove_idem (l : List ZEntry) (m : String) :
    zremove (zremove l m) m = zremove l m :=
  zremove_of_all_ne (fun _ hx => (mem_zremove.mp hx).2)

/-! ### Store-operation lemmas -/

theorem string_append_cancel {p a b : String} (h : p ++ a = p ++ b) : a = b := by
  have hd : p.data ++ a.data = p.data ++ b.data := by
    have := congrArg String.data h
    simpa [String.data_append] using this
  have hab : a.data = b.data := List.append_cancel_left hd
  cases a; cases b
  exact congrArg String.mk hab

theorem clientKey_inj {c c' : String} (h : clientKey c = clientKey c') : c = c' :=
  string_append_cancel h

theorem backendKey_inj {b b' : String} (h : backendKey b = backendKey b') : b = b' :=
  string_append_cancel h

theorem kv_zadd (st : RedisState) (k : String) (e : ZEntry) :
    (zadd st k e).kv = st.kv := rfl

theorem kv_zrem (st : RedisState) (k m : String) : (zrem st k m).kv = st.kv := rfl

theorem zsets_kvSet (st : RedisState) (now ttl : Int) (k v : String) :
    (kvSet st now ttl k v).zsets = st.zsets := rfl

theorem zsetOf_zadd_same (st : RedisState) (k : String) (e : ZEntry) :
    zsetOf (zadd st k e) k = e :: zremove (zsetOf st k) e.member := by
  simp [zsetOf, zadd, alookup_aset_same]

theorem zsetOf_zadd_other (st : RedisState) (k k' : String) (e : ZEntry)
    (h : k' ≠ k) : zsetOf (zadd st k e) k' = zsetOf st k' := by
  simp [zsetOf, zadd, alookup_aset_other _ _ _ _ h]

theorem zsetOf_zrem_same (st : RedisState) (k m : String) :
    zsetOf (zrem st k m) k = zremove (zsetOf st k) m := by
  simp [zsetOf, zrem, alookup_aset_same]

theorem zsetOf_zrem_other (st : RedisState) (k k' m : String) (h : k' ≠ k) :
    zsetOf (zrem st k m) k' = zsetOf st k' := by
  simp [zsetOf, zrem, alookup_aset_other _ _ _ _ h]

theorem mappingRec_add_same (st : RedisState) (now ttl : Int) (b c : String) :
    mappingRec (AddActiveRequestToBackend st now ttl b c) c = some (b, now + ttl) := by
  simp [mappingRec, AddActiveRequestToBackend, zadd, kvSet, alookup_aset_same]

theorem mappingRec_add_other (st : RedisState) (now ttl : Int) (b c c' : String)
    (h : c' ≠ c) : mappingRec (AddActiveRequestToBackend st now ttl b c) c' =
      mappingRec st c' := by
  have hk : clientKey c' ≠ clientKey c := fun hh => h (clientKey_inj hh)
  simp [mappingRec, AddActiveRequestToBackend, zadd, kvSet,
    alookup_aset_other _ _ _ _ hk]

theorem mappingRec_zrem (st : RedisState) (k m : String) (c : String) :
    mappingRec (zrem st k m) c = mappingRec st c := rfl

theorem kvGet_clientKey (st : RedisState) (now : Int) (c : String) :
    kvGet st now (clientKey c) =
      match mappingRec st c with
      | some (v, e) => if now ≤ e then some v else none
      | none => none := rfl

theorem zsetOf_add_same (st : RedisState) (now ttl : Int) (b c : String) :
    zsetOf (AddActiveRequestToBackend st now ttl b c) (backendKey b) =
      ZEntry.mk c now :: zremove (zsetOf st (backendKey b)) c := by
  have h := zsetOf_zadd_same (kvSet st now ttl (clientKey c) b) (backendKey b)
    (ZEntry.mk c now)
  simpa [AddActiveRequestToBackend, zsetOf, zsets_kvSet] using h

theorem zsetOf_add_other (st : RedisState) (now ttl : Int) (b b' c : String)
    (h : b' ≠ b) : zsetOf (AddActiveRequestToBackend st now ttl b c) (backendKey b') =
      zsetOf st (backendKey b') := by
  have hk : backendKey b' ≠ backendKey b := fun hh => h (backendKey_inj hh)
  have h2 := zsetOf_zadd_other (kvSet st now ttl (clientKey c) b) (backendKey b)
    (backendKey b') (ZEntry.mk c now) hk
  simpa [AddActiveRequestToBackend, zsetOf, zsets_kvSet] using h2

/-! ### Least-loaded selection lemmas -/

theorem selectLoop_pure (count : String → Int) (status : String → Except String Int) :
    ∀ (l : List String), (∀ ip ∈ l, status ip = Except.ok (count ip)) →
      ∀ (m : Int) (best : String), selectLoop status l m best = selectGo count l m best := by
  intro l
  induction l with
  | nil => intro _ m best; rfl
  | cons ip rest ih =>
    intro hok m best
    have h1 := hok ip (List.mem_cons_self ip rest)
    have h2 : ∀ x ∈ rest, status x = Except.ok (count x) :=
      fun x hx => hok x (List.mem_cons_of_mem ip hx)
    by_cases hlt : count ip < m
    · simp only [selectLoop, selectGo, h1, hlt, if_true]
      exact ih h2 (count ip) ip
    · simp only [selectLoop, selectGo, h1, hlt, if_false]
      exact ih h2 m best

theorem selectGo_no_improve (count : String → Int) :
    ∀ (l : List String) (m : Int) (best : String),
      (∀ ip ∈ l, m ≤ count ip) → selectGo count l m best = best := by
  intro l
  induction l with
  | nil => intro m best _; rfl
  | cons ip rest ih =>
    intro m best h
    have h1 : ¬ count ip < m := not_lt.mpr (h ip (List.mem_cons_self ip rest))
    simp only [selectGo, h1, if_false]
    exact ih m best (fun x hx => h x (List.mem_cons_of_mem ip hx))

theorem selectGo_finds_min (count : String → Int) :
    ∀ (l : List String) (m : Int) (best : String),
      (∃ ip ∈ l, count ip < m) →
      ∃ l1 b l2, l = l1 ++ b :: l2 ∧ count b < m
        ∧ (∀ x ∈ l1, count b < count x)
        ∧ (∀ x ∈ l2, count b ≤ count x)
        ∧ selectGo count l m best = b := by
  intro l
  induction l with
  | nil =>
    rintro m best ⟨ip, hip, _⟩
    cases hip
  | cons ip rest ih =>
    intro m best hex
    by_cases hlt : count ip < m
    · by_cases himp : ∃ x ∈ rest, count x < count ip
      · obtain ⟨l1, b, l2, hdec, hb, hl1, hl2, hres⟩ := ih (count ip) ip himp
        refine ⟨ip :: l1, b, l2, ?_, lt_trans hb hlt, ?_, hl2, ?_⟩
        · rw [hdec, List.cons_append]
        · intro x hx
          rcases List.mem_cons.mp hx with h | h
          · exact h ▸ hb
          · exact hl1 x h
        · simp only [selectGo, hlt, if_true]
          exact hres
      · push_neg at himp
        refine ⟨[], ip, rest, rfl, hlt, ?_, himp, ?_⟩
        · intro x hx
          cases hx
        · simp only [selectGo, hlt, if_true]
          exact selectGo_no_improve count rest (count ip) ip himp
    · have hex' : ∃ x ∈ rest, count x < m := by
        obtain ⟨x, hx, hxm⟩ := hex
        rcases List.mem_cons.mp hx with h | h
        · exact absurd (h ▸ hxm) hlt
        · exact ⟨x, h, hxm⟩
      obtain ⟨l1, b, l2, hdec, hb, hl1, hl2, hres⟩ := ih m best hex'
      refine ⟨ip :: l1, b, l2, by rw [hdec, List.cons_append], hb, ?_, hl2, ?_⟩
      · intro x hx
        rcases List.mem_cons.mp hx with h | h
        · exact h ▸ lt_of_lt_of_le hb (not_lt.mp hlt)
        · exact hl1 x h
      · simp only [selectGo, hlt, if_false]
        exact hres

/-- C1: with every count query succeeding, `getLeastLoadedBackend` over a
backend set with non-empty addresses either fails with the
"no available backend" error when every live count is at least the cap
`M`, or returns the backend whose live count (entries of
`backend:{addr}` scored within `[now - TTL, now]`) is strictly smallest
and strictly below `M`, ties broken by iteration order over the backend
list (the returned backend strictly beats everything before it and is no
worse than everything after it). -/
theorem select_least_loaded_spec (st : RedisState) (now ttl : Int)
    (B : List String) (M : Int) (status : String → Except String Int)
    (hok : ∀ ip ∈ B, status ip = Except.ok (getBackendStatus st now ttl ip))
    (hne : ∀ ip ∈ B, ip ≠ "") :
    ((∀ ip ∈ B, M ≤ getBackendStatus st now ttl ip) →
        getLeastLoadedBackend status B M =
          Except.error ("no available backend" ++ " found"))
    ∧ ((∃ ip ∈ B, getBackendStatus st now ttl ip < M) →
        ∃ l1 b l2, B = l1 ++ b :: l2
          ∧ getBackendStatus st now ttl b < M
          ∧ (∀ x ∈ l1, getBackendStatus st now ttl b < getBackendStatus st now ttl x)
          ∧ (∀ x ∈ l2, getBackendStatus st now ttl b ≤ getBackendStatus st now ttl x)
          ∧ getLeastLoadedBackend status B M = Except.ok b) := by
  have hpure := selectLoop_pure (getBackendStatus st now ttl) status B hok M ""
  constructor
  · intro hall
    have hbest : selectGo (getBackendStatus st now ttl) B M "" = "" :=
      selectGo_no_improve _ B M "" hall
    simp only [getLeastLoadedBackend, hpure, hbest]
    rfl
  · intro hex
    obtain ⟨l1, b, l2, hdec, hb, hl1, hl2, hres⟩ :=
      selectGo_finds_min (getBackendStatus st now ttl) B M "" hex
    refine ⟨l1, b, l2, hdec, hb, hl1, hl2, ?_⟩
    have hbB : b ∈ B := by
      rw [hdec]
      exact List.mem_append_right l1 (List.mem_cons_self b l2)
    have hbne : (b == "") = false := by
      simp only [beq_eq_false_iff_ne]
      exact hne b hbB
    simp only [getLeastLoadedBackend, hpure, hres, hbne]
    rfl

/-- Witness for C1 at a concrete input: two backends, the empty store and
cap 2; the first backend (count 0) is selected. -/
theorem select_least_loaded_spec_witness :
    ∃ l1 b l2, ["10.0.0.1", "10.0.0.2"] = l1 ++ b :: l2
      ∧ getBackendStatus RedisState.empty 0 3600000 b < 2
      ∧ (∀ x ∈ l1, getBackendStatus RedisState.empty 0 3600000 b <
          getBackendStatus RedisState.empty 0 3600000 x)
      ∧ (∀ x ∈ l2, getBackendStatus RedisState.empty 0 3600000 b ≤
          getBackendStatus RedisState.empty 0 3600000 x)
      ∧ getLeastLoadedBackend (pureStatus RedisState.empty 0 3600000)
          ["10.0.0.1", "10.0.0.2"] 2 = Except.ok b :=
  (select_least_loaded_spec RedisState.empty 0 3600000 ["10.0.0.1", "10.0.0.2"] 2
      (pureStatus RedisState.empty 0 3600000) (fun _ _ => rfl) (by decide)).2
    ⟨"10.0.0.1", by decide, by decide⟩

/-- The forward mapping written by `AddActiveRequestToBackend` answers the
recorded backend to any `GET` at or before its expiry instant. -/
theorem kvGet_add_same (st : RedisState) (now ttl t : Int) (b c : String) :
    kvGet (AddActiveRequestToBackend st now ttl b c) t (clientKey c) =
      if t ≤ now + ttl then some b else none := by
  rw [kvGet_clientKey, mappingRec_add_same]

/-- C2: `getOrAssignBackend` returns a present forward mapping's value
without consulting the selection; on a missing key it answers exactly what
the least-loaded selection answers; any other store error is surfaced as a
failure; and after a successful start the same client is routed to the
same backend at any time before the mapping's TTL expires, whatever the
selection would say. -/
theorem get_or_assign_backend_spec :
    (∀ (v : String) (select : Except String String),
        getOrAssignBackend (GetResult.found v) select = Except.ok v)
    ∧ (∀ b : String, getOrAssignBackend GetResult.missing (Except.ok b) = Except.ok b)
    ∧ (∀ e : String, getOrAssignBackend GetResult.missing (Except.error e) =
        Except.error ("error getting least loaded backend: " ++ e))
    ∧ (∀ (e : String) (select : Except String String),
        getOrAssignBackend (GetResult.err e) select =
          Except.error ("error getting backend: " ++ e))
    ∧ (∀ (st : RedisState) (now ttl now' : Int) (b c : String)
        (select : Except String String), now' < now + ttl →
        getOrAssignBackend
          (stateGet (AddActiveRequestToBackend st now ttl b c) now' c) select =
          Except.ok b) := by
  refine ⟨fun v select => rfl, fun b => rfl, fun e => rfl, fun e select => rfl, ?_⟩
  intro st now ttl now' b c select h
  simp [stateGet, kvGet_add_same, le_of_lt h, getOrAssignBackend]

/-- Witness for C2: a concrete store where the mapping was written at time
0 with TTL 5; a lookup at time 3 is sticky to the recorded backend even
though the selection would fail. -/
theorem get_or_assign_backend_spec_witness :
    getOrAssignBackend
      (stateGet (AddActiveRequestToBackend RedisState.empty 0 5 "10.0.0.1" "c") 3 "c")
      (Except.error "unreachable") = Except.ok "10.0.0.1" :=
  get_or_assign_backend_spec.2.2.2.2 RedisState.empty 0 5 3 "10.0.0.1" "c"
    (Except.error "unreachable") (by decide)

/-- C5: a `/stop_agent` for a client with no forward mapping answers 500
with an "Error retrieving backend" body, leaves the store unchanged, and
performs no upstream call (the outcome is the same for every upstream
behaviour). -/
theorem stop_unmapped_client (st : RedisState) (now : Int) (clientID : String)
    (upstream : String → Upstream)
    (h : kvGet st now (clientKey clientID) = none) :
    (HandleStop st now clientID upstream).1.status = 500
    ∧ getFieldJ (HandleStop st now clientID upstream).1.body "error" =
        some (JVal.str "Error retrieving backend")
    ∧ (HandleStop st now clientID upstream).2 = st
    ∧ (∀ upstream2 : String → Upstream,
        HandleStop st now clientID upstream = HandleStop st now clientID upstream2) := by
  have hs : stateGet st now clientID = GetResult.missing := by
    simp [stateGet, h]
  refine ⟨?_, ?_, ?_, ?_⟩ <;>
    simp [HandleStop, hs, getClientBackend, errBody, getFieldJ, alookup]

/-- Witness for C5: stopping a client in the empty store. -/
theorem stop_unmapped_client_witness :
    (HandleStop RedisState.empty 7 "ghost"
        (fun _ => Upstream.jsonResponse 200 [])).1.status = 500
    ∧ (HandleStop RedisState.empty 7 "ghost"
        (fun _ => Upstream.jsonResponse 200 [])).2 = RedisState.empty :=
  ⟨(stop_unmapped_client RedisState.empty 7 "ghost"
      (fun _ => Upstream.jsonResponse 200 []) (by decide)).1,
   (stop_unmapped_client RedisState.empty 7 "ghost"
      (fun _ => Upstream.jsonResponse 200 []) (by decide)).2.2.1⟩

/-- C4: when the upstream call yields a parsed JSON object, `HandleStart`
answers with the upstream's own status code (2xx or not, unchanged) and
with that object in which the field `clientID` is added or overwritten to
the derived client identifier, all other fields untouched. -/
theorem start_forwards_upstream_json (st : RedisState) (now ttl : Int)
    (clientID : String) (select : Except String String)
    (upstream : String → Upstream) (recordOk : Bool) (b : String)
    (status : Nat) (body : JObj)
    (hassign : getOrAssignBackend (stateGet st now clientID) select = Except.ok b)
    (hup : upstream b = Upstream.jsonResponse status body) :
    (HandleStart st now ttl clientID select upstream recordOk).1.status = status
    ∧ getFieldJ (HandleStart st now ttl clientID select upstream recordOk).1.body
        "clientID" = some (JVal.str clientID)
    ∧ (∀ k : String, k ≠ "clientID" →
        getFieldJ (HandleStart st now ttl clientID select upstream recordOk).1.body k =
          getFieldJ body k) := by
  by_cases h2 : 200 ≤ status ∧ status < 300
  · refine ⟨?_, ?_, ?_⟩
    · simp [HandleStart, hassign, hup, h2]
    · simp [HandleStart, hassign, hup, h2, getFieldJ, setField, alookup_aset_same]
    · intro k hk
      simp [HandleStart, hassign, hup, h2, getFieldJ, setField,
        alookup_aset_other _ _ _ _ hk]
  · refine ⟨?_, ?_, ?_⟩
    · simp [HandleStart, hassign, hup, h2]
    · simp [HandleStart, hassign, hup, h2, getFieldJ, setField, alookup_aset_same]
    · intro k hk
      simp [HandleStart, hassign, hup, h2, getFieldJ, setField,
        alookup_aset_other _ _ _ _ hk]

/-- Witness for C4: a 404 upstream answer with a body is forwarded with
its status and the `clientID` field injected. -/
theorem start_forwards_upstream_json_witness :
    (HandleStart RedisState.empty 0 3600000 "cid" (Except.ok "10.0.0.1")
        (fun _ => Upstream.jsonResponse 404 [("status", JVal.str "missing")])
        true).1.status = 404
    ∧ getFieldJ (HandleStart RedisState.empty 0 3600000 "cid" (Except.ok "10.0.0.1")
        (fun _ => Upstream.jsonResponse 404 [("status", JVal.str "missing")])
        true).1.body "clientID" = some (JVal.str "cid")
    ∧ getFieldJ (HandleStart RedisState.empty 0 3600000 "cid" (Except.ok "10.0.0.1")
        (fun _ => Upstream.jsonResponse 404 [("status", JVal.str "missing")])
        true).1.body "status" = some (JVal.str "missing") := by
  have h := start_forwards_upstream_json RedisState.empty 0 3600000 "cid"
    (Except.ok "10.0.0.1")
    (fun _ => Upstream.jsonResponse 404 [("status", JVal.str "missing")]) true
    "10.0.0.1" 404 [("status", JVal.str "missing")] rfl rfl
  exact ⟨h.1, h.2.1, by rw [h.2.2 "status" (by decide)]; decide⟩

/-- C7: with allow-list `*` every origin is allowed and reflected in the
`Access-Control-Allow-Origin` header; with any other allow-list an origin
is allowed exactly when it equals one of the comma-separated entries
verbatim; a disallowed origin is rejected with 403 and the body
`\x7b"error":"Origin not allowed"\x7d`; and an allowed `OPTIONS` request
is answered 204 with no body and the CORS headers set. -/
theorem cors_middleware_spec (allowOrigin method origin : String) :
    (allowOrigin = "*" →
        isOriginAllowed allowOrigin origin = true
        ∧ ∃ hs, (CORShttpHeaders allowOrigin method origin = CorsOutcome.preflight 204 hs
              ∨ CORShttpHeaders allowOrigin method origin = CorsOutcome.passed hs)
            ∧ ("Access-Control-Allow-Origin", origin) ∈ hs)
    ∧ (allowOrigin ≠ "*" →
        (isOriginAllowed allowOrigin origin = true ↔
          origin ∈ splitComma allowOrigin))
    ∧ (isOriginAllowed allowOrigin origin = false →
        CORShttpHeaders allowOrigin method origin =
          CorsOutcome.rejected 403 [("error", JVal.str "Origin not allowed")])
    ∧ (isOriginAllowed allowOrigin origin = true → method = "OPTIONS" →
        CORShttpHeaders allowOrigin method origin =
          CorsOutcome.preflight 204 (corsHeaders origin)) := by
  refine ⟨?_, ?_, ?_, ?_⟩
  · intro h
    subst h
    have hall : isOriginAllowed "*" origin = true := by simp [isOriginAllowed]
    refine ⟨hall, corsHeaders origin, ?_, by simp [corsHeaders]⟩
    by_cases hm : method = "OPTIONS"
    · left
      simp [CORShttpHeaders, hall, hm]
    · right
      have hm' : (method == "OPTIONS") = false := by simpa using hm
      simp [CORShttpHeaders, hall, hm']
  · intro h
    have h' : (allowOrigin == "*") = false := by simpa using h
    simp only [isOriginAllowed, h', Bool.false_eq_true, if_false, List.any_eq_true,
      beq_iff_eq]
    constructor
    · rintro ⟨x, hx, hox⟩
      exact hox ▸ hx
    · intro hx
      exact ⟨origin, hx, rfl⟩
  · intro h
    simp [CORShttpHeaders, h]
  · intro h hm
    simp [CORShttpHeaders, h, hm]

/-- Witness for C7: origin `https://evil.example` against allow-list
`https://ok.example` is rejected with 403, and an allowed preflight is
answered 204. -/
theorem cors_middleware_spec_witness :
    CORShttpHeaders "https://ok.example" "POST" "https://evil.example" =
      CorsOutcome.rejected 403 [("error", JVal.str "Origin not allowed")]
    ∧ CORShttpHeaders "https://ok.example" "OPTIONS" "https://ok.example" =
      CorsOutcome.preflight 204 (corsHeaders "https://ok.example") :=
  ⟨(cors_middleware_spec "https://ok.example" "POST" "https://evil.example").2.2.1
      (by decide),
   (cors_middleware_spec "https://ok.example" "OPTIONS" "https://ok.example").2.2.2
      (by decide) rfl⟩

/-- C10: a `/start_agent` or `/stop_agent` body whose `uid` field is
missing or zero is rejected with 400 "Invalid request body" — even when
`channel_name` is present and non-empty — the store state is unchanged and
the outcome does not depend on the store, the selection or the upstream
(no backend and no store is contacted). -/
theorem uid_required_rejects (st : RedisState) (now ttl : Int)
    (channelName : Option String) (uidOpt : Option Int) (clientID : String)
    (select : Except String String) (upstream : String → Upstream) (recordOk : Bool)
    (h : uidOpt = none ∨ uidOpt = some 0) :
    validateAndHandleStart st now ttl channelName uidOpt clientID select upstream
        recordOk = (⟨400, [("error", JVal.str "Invalid request body")]⟩, st)
    ∧ validateAndHandleStop st now channelName uidOpt clientID upstream =
        (⟨400, [("error", JVal.str "Invalid request body")]⟩, st) := by
  rcases h with h | h <;> subst h <;>
    constructor <;>
      simp [validateAndHandleStart, validateAndHandleStop, ShouldBindJSON]

/-- Witness for C10: `uid = 0` alongside a non-empty `channel_name` is
rejected with 400. -/
theorem uid_required_rejects_witness :
    validateAndHandleStart RedisState.empty 0 3600000 (some "test_channel") (some 0)
        "cid" (Except.ok "10.0.0.1") (fun _ => Upstream.jsonResponse 200 []) true =
      (⟨400, [("error", JVal.str "Invalid request body")]⟩, RedisState.empty)
    ∧ validateAndHandleStop RedisState.empty 0 (some "test_channel") (some 0) "cid"
        (fun _ => Upstream.jsonResponse 200 []) =
      (⟨400, [("error", JVal.str "Invalid request body")]⟩, RedisState.empty) :=
  uid_required_rejects RedisState.empty 0 3600000 (some "test_channel") (some 0) "cid"
    (Except.ok "10.0.0.1") (fun _ => Upstream.jsonResponse 200 []) true (Or.inr rfl)

/-- Counterexample to C3 as stated: an upstream answer whose status line
is 200 (a 2xx) but whose body cannot be read makes `HandleStart` answer
500 and write nothing — neither the forward mapping nor the active-set
entry — although the upstream backend call returned a 2xx status. -/
theorem start_record_iff_2xx_cex :
    (HandleStart RedisState.empty 0 3600000 "cid" (Except.ok "10.0.0.1")
        (fun _ => Upstream.readError "read failed" 200) true).2 = RedisState.empty
    ∧ (HandleStart RedisState.empty 0 3600000 "cid" (Except.ok "10.0.0.1")
        (fun _ => Upstream.readError "read failed" 200) true).1.status = 500
    ∧ kvGet (HandleStart RedisState.empty 0 3600000 "cid" (Except.ok "10.0.0.1")
        (fun _ => Upstream.readError "read failed" 200) true).2 1
        (clientKey "cid") = none
    ∧ AddActiveRequestToBackend RedisState.empty 0 3600000 "10.0.0.1" "cid" ≠
        RedisState.empty := by
  refine ⟨rfl, rfl, rfl, ?_⟩
  intro h
  exact absurd (congrArg RedisState.kv h) (by decide)

/-- C3 amended: the forward mapping and the active-set entry are written
(via `AddActiveRequestToBackend`) if and only if the upstream call
returned a 2xx status *and* its body was read and parsed as a JSON
object; an upstream transport failure yields 502 and leaves the store
unchanged; and the response is the one already determined before
recording, unchanged whether the recording pipeline succeeds or fails. -/
theorem start_record_iff_2xx (st : RedisState) (now ttl : Int) (clientID : String)
    (select : Except String String) (upstream : String → Upstream) (b : String)
    (hassign : getOrAssignBackend (stateGet st now clientID) select = Except.ok b) :
    (∀ (status : Nat) (body : JObj), upstream b = Upstream.jsonResponse status body →
        200 ≤ status → status < 300 →
        (HandleStart st now ttl clientID select upstream true).2 =
          AddActiveRequestToBackend st now ttl b clientID)
    ∧ (∀ (status : Nat) (body : JObj), upstream b = Upstream.jsonResponse status body →
        ¬(200 ≤ status ∧ status < 300) →
        (HandleStart st now ttl clientID select upstream true).2 = st)
    ∧ (∀ msg : String, upstream b = Upstream.transportError msg →
        HandleStart st now ttl clientID select upstream true =
          (⟨502, errBody ("Failed to reach backend service") msg⟩, st))
    ∧ (∀ (msg : String) (status : Nat),
        upstream b = Upstream.readError msg status ∨
          upstream b = Upstream.parseError msg status →
        (HandleStart st now ttl clientID select upstream true).2 = st)
    ∧ (∀ recordOk1 recordOk2 : Bool,
        (HandleStart st now ttl clientID select upstream recordOk1).1 =
          (HandleStart st now ttl clientID select upstream recordOk2).1) := by
  refine ⟨?_, ?_, ?_, ?_, ?_⟩
  · intro status body hup h1 h2
    simp [HandleStart, hassign, hup, h1, h2]
  · intro status body hup h12
    simp [HandleStart, hassign, hup, h12]
  · intro msg hup
    simp [HandleStart, hassign, hup]
  · rintro msg status (hup | hup) <;> simp [HandleStart, hassign, hup]
  · intro r1 r2
    cases hup : upstream b with
    | transportError msg => simp [HandleStart, hassign, hup]
    | readError msg status => simp [HandleStart, hassign, hup]
    | parseError msg status => simp [HandleStart, hassign, hup]
    | jsonResponse status body =>
      by_cases h2 : 200 ≤ status ∧ status < 300 <;> simp [HandleStart, hassign, hup, h2]

/-- Witness for the amended C3: a 200 upstream answer with a JSON body is
recorded, and a transport error leaves the empty store unchanged with a
502. -/
theorem start_record_iff_2xx_witness :
    (HandleStart RedisState.empty 0 3600000 "cid" (Except.ok "10.0.0.1")
        (fun _ => Upstream.jsonResponse 200 [("status", JVal.str "ok")]) true).2 =
      AddActiveRequestToBackend RedisState.empty 0 3600000 "10.0.0.1" "cid"
    ∧ HandleStart RedisState.empty 0 3600000 "cid" (Except.ok "10.0.0.1")
        (fun _ => Upstream.transportError "timeout") true =
      (⟨502, errBody ("Failed to reach backend service") "timeout"⟩, RedisState.empty) :=
  ⟨(start_record_iff_2xx RedisState.empty 0 3600000 "cid" (Except.ok "10.0.0.1")
      (fun _ => Upstream.jsonResponse 200 [("status", JVal.str "ok")]) "10.0.0.1"
      rfl).1 200 [("status", JVal.str "ok")] rfl (by decide) (by decide),
   (start_record_iff_2xx RedisState.empty 0 3600000 "cid" (Except.ok "10.0.0.1")
      (fun _ => Upstream.transportError "timeout") "10.0.0.1" rfl).2.2.1
      "timeout" rfl⟩

/-- Counterexample to C8 as stated: the `/ping` route is registered on the
engine after `RegisterRoutes` has installed the CORS, no-cache and
timestamp middleware with `router.Use`, so in gin the header middleware
does apply to `/ping`; its middleware chain is not empty. -/
theorem ping_middleware_cex :
    ((setupRouter.routes.find? (fun r => r.path == "/ping")).map Route.middlewares =
      some ["CORShttpHeaders", "NoCache", "Timestamp"])
    ∧ ¬((setupRouter.routes.find? (fun r => r.path == "/ping")).map Route.middlewares =
      some []) := by
  constructor
  · rfl
  · intro h
    rw [show (setupRouter.routes.find? (fun r => r.path == "/ping")).map
        Route.middlewares = some ["CORShttpHeaders", "NoCache", "Timestamp"] from rfl]
      at h
    exact absurd (Option.some.inj h) (by decide)

/-- C8 amended: `GET /ping` answers 200 with body
`\x7b"message":"pong"\x7d`, but the route *is* subject to the header
middleware: it is registered after the middleware is installed, so its
chain carries the CORS check, the no-cache headers and the timestamp. -/
theorem ping_route_spec :
    Ping.status = 200
    ∧ getFieldJ Ping.body "message" = some (JVal.str "pong")
    ∧ setupRouter.routes.find? (fun r => r.path == "/ping") =
        some ⟨"GET", "/ping", ["CORShttpHeaders", "NoCache", "Timestamp"]⟩ := by
  refine ⟨rfl, rfl, rfl⟩

theorem kvGet_zrem (st : RedisState) (k m : String) (now : Int) (key : String) :
    kvGet (zrem st k m) now key = kvGet st now key := rfl

/-- C6: after a successful start for client `c` on backend `b` (written by
`AddActiveRequestToBackend`), a successful stop removes `c` from
`backend:{b}`'s sorted set and restores that active set to its exact state
before the start (the forward mapping is left to its TTL); and a repeated
stop afterwards leaves every active set unchanged, removal of an absent
member being a no-op. -/
theorem start_stop_roundtrip (st : RedisState) (now ttl now' now'' : Int)
    (b c : String) (upstream : String → Upstream) (status : Nat) (body : JObj)
    (hfresh : ∀ x ∈ zsetOf st (backendKey b), x.member ≠ c)
    (h1 : now' < now + ttl) (h2 : now'' < now + ttl)
    (hup : upstream b = Upstream.jsonResponse status body)
    (h2xx : 200 ≤ status ∧ status < 300) :
    (HandleStop (AddActiveRequestToBackend st now ttl b c) now' c upstream).2 =
      RemoveActiveRequestFromBackend (AddActiveRequestToBackend st now ttl b c) b c
    ∧ zsetOf (HandleStop (AddActiveRequestToBackend st now ttl b c) now' c upstream).2
        (backendKey b) = zsetOf st (backendKey b)
    ∧ (∀ s : Int, ¬ hasEntry
        (HandleStop (AddActiveRequestToBackend st now ttl b c) now' c upstream).2 b c s)
    ∧ (∀ k : String,
        zsetOf (HandleStop
            ((HandleStop (AddActiveRequestToBackend st now ttl b c) now' c upstream).2)
            now'' c upstream).2 k =
          zsetOf ((HandleStop (AddActiveRequestToBackend st now ttl b c) now' c
            upstream).2) k) := by
  have hget1 : stateGet (AddActiveRequestToBackend st now ttl b c) now' c =
      GetResult.found b := by
    simp [stateGet, kvGet_add_same, le_of_lt h1]
  have hstop1 : (HandleStop (AddActiveRequestToBackend st now ttl b c) now' c
      upstream).2 =
      RemoveActiveRequestFromBackend (AddActiveRequestToBackend st now ttl b c) b c := by
    simp [HandleStop, hget1, getClientBackend, hup, h2xx]
  have hz2 : zsetOf (RemoveActiveRequestFromBackend
      (AddActiveRequestToBackend st now ttl b c) b c) (backendKey b) =
      zsetOf st (backendKey b) := by
    rw [RemoveActiveRequestFromBackend, zsetOf_zrem_same, zsetOf_add_same]
    simp only [zremove, beq_self_eq_true, if_true]
    rw [zremove_idem, zremove_of_all_ne hfresh]
  have hget2 : stateGet (RemoveActiveRequestFromBackend
      (AddActiveRequestToBackend st now ttl b c) b c) now'' c = GetResult.found b := by
    simp [stateGet, RemoveActiveRequestFromBackend, kvGet_zrem, kvGet_add_same,
      le_of_lt h2]
  refine ⟨hstop1, ?_, ?_, ?_⟩
  · rw [hstop1]
    exact hz2
  · intro s h
    rw [hasEntry, hstop1, hz2] at h
    exact hfresh (ZEntry.mk c s) h rfl
  · intro k
    rw [hstop1]
    have hstop2 : (HandleStop (RemoveActiveRequestFromBackend
        (AddActiveRequestToBackend st now ttl b c) b c) now'' c upstream).2 =
        RemoveActiveRequestFromBackend (RemoveActiveRequestFromBackend
          (AddActiveRequestToBackend st now ttl b c) b c) b c := by
      simp [HandleStop, hget2, getClientBackend, hup, h2xx]
    rw [hstop2]
    by_cases hk : k = backendKey b
    · subst hk
      rw [RemoveActiveRequestFromBackend, zsetOf_zrem_same, hz2,
        zremove_of_all_ne hfresh]
    · rw [RemoveActiveRequestFromBackend, zsetOf_zrem_other _ _ _ _ hk]

/-- Witness for C6: a concrete start then stop on the empty store restores
the backend's (empty) active set. -/
theorem start_stop_roundtrip_witness :
    zsetOf (HandleStop (AddActiveRequestToBackend RedisState.empty 0 10 "10.0.0.1" "c")
        3 "c" (fun _ => Upstream.jsonResponse 200 [])).2 (backendKey "10.0.0.1") =
      zsetOf RedisState.empty (backendKey "10.0.0.1") :=
  (start_stop_roundtrip RedisState.empty 0 10 3 4 "10.0.0.1" "c"
      (fun _ => Upstream.jsonResponse 200 []) 200 [] (by decide) (by decide) (by decide)
      rfl (by decide)).2.1

/-! ### Invariant preservation for sequential start/stop traces -/

theorem hasEntry_add_same_backend (st : RedisState) (now ttl : Int) (b c c' : String)
    (s : Int) : hasEntry (AddActiveRequestToBackend st now ttl b c) b c' s ↔
      (c' = c ∧ s = now) ∨ (hasEntry st b c' s ∧ c' ≠ c) := by
  simp only [hasEntry, zsetOf_add_same, List.mem_cons, mem_zremove]
  constructor
  · rintro (h | ⟨h1, h2⟩)
    · have hc : c' = c := congrArg ZEntry.member h
      have hs : s = now := congrArg ZEntry.score h
      exact Or.inl ⟨hc, hs⟩
    · exact Or.inr ⟨h1, h2⟩
  · rintro (⟨hc, hs⟩ | ⟨h1, h2⟩)
    · exact Or.inl (by rw [hc, hs])
    · exact Or.inr ⟨h1, h2⟩

theorem hasEntry_add_other_backend (st : RedisState) (now ttl : Int) (b b' c c' : String)
    (s : Int) (h : b' ≠ b) :
    hasEntry (AddActiveRequestToBackend st now ttl b c) b' c' s ↔ hasEntry st b' c' s := by
  simp only [hasEntry, zsetOf_add_other st now ttl b b' c h]

theorem hasEntry_remove_sub (st : RedisState) (b0 c0 b' c' : String) (s : Int)
    (he : hasEntry (RemoveActiveRequestFromBackend st b0 c0) b' c' s) :
    hasEntry st b' c' s := by
  by_cases hb : b' = b0
  · rw [hb] at he ⊢
    simp only [hasEntry, RemoveActiveRequestFromBackend, zsetOf_zrem_same] at he
    exact (mem_zremove.mp he).1
  · have hkk : backendKey b' ≠ backendKey b0 := fun hh => hb (backendKey_inj hh)
    simpa only [hasEntry, RemoveActiveRequestFromBackend,
      zsetOf_zrem_other _ _ _ _ hkk] using he

theorem hasEntry_stepStop_sub (st : RedisState) (t : Int) (c0 b' c' : String) (s : Int)
    (he : hasEntry (stepStop st t c0) b' c' s) : hasEntry st b' c' s := by
  unfold stepStop at he
  cases hk : kvGet st t (clientKey c0) with
  | none => rwa [hk] at he
  | some b =>
    rw [hk] at he
    exact hasEntry_remove_sub st b c0 b' c' s he

/-- Full characterization of the active-set entries after
`AddActiveRequestToBackend`: the fresh entry, plus every old entry except
the replaced one. -/
theorem hasEntry_add_iff (st : RedisState) (now ttl : Int) (b c b' c' : String)
    (s : Int) : hasEntry (AddActiveRequestToBackend st now ttl b c) b' c' s ↔
      (b' = b ∧ c' = c ∧ s = now)
      ∨ (hasEntry st b' c' s ∧ ¬(b' = b ∧ c' = c)) := by
  by_cases hb : b' = b
  · rw [hb, hasEntry_add_same_backend]
    constructor
    · rintro (⟨hc, hs⟩ | ⟨h1, h2⟩)
      · exact Or.inl ⟨rfl, hc, hs⟩
      · exact Or.inr ⟨h1, fun hh => h2 hh.2⟩
    · rintro (⟨_, hc, hs⟩ | ⟨h1, h2⟩)
      · exact Or.inl ⟨hc, hs⟩
      · exact Or.inr ⟨h1, fun hc => h2 ⟨rfl, hc⟩⟩
  · rw [hasEntry_add_other_backend st now ttl b b' c c' s hb]
    constructor
    · intro h1
      exact Or.inr ⟨h1, fun hh => hb hh.1⟩
    · rintro (⟨hbb, _⟩ | ⟨h1, _⟩)
      · exact absurd hbb hb
      · exact h1

theorem mappingRec_stepStop (st : RedisState) (t : Int) (c0 c : String) :
    mappingRec (stepStop st t c0) c = mappingRec st c := by
  unfold stepStop
  cases kvGet st t (clientKey c0) <;> rfl

theorem Inv.mono {ttl tcur t : Int} {st : RedisState} (h : Inv ttl tcur st)
    (hle : tcur ≤ t) : Inv ttl t st := by
  obtain ⟨h1, h2⟩ := h
  constructor
  · intro c b s he
    obtain ⟨hs, bm, e, hrec, hse, hstr⟩ := h1 c b s he
    exact ⟨le_trans hs hle, bm, e, hrec, hse, hstr⟩
  · intro c bm e hrec
    have := h2 c bm e hrec
    omega

theorem empty_inv (ttl tcur : Int) : Inv ttl tcur RedisState.empty := by
  constructor
  · intro c b s he
    simp [hasEntry, zsetOf, alookup, RedisState.empty] at he
  · intro c bm e hrec
    simp [mappingRec, alookup, RedisState.empty] at hrec

theorem add_preserves (ttl tcur t : Int) (hle : tcur ≤ t)
    (st : RedisState) (b c : String) (hinv : Inv ttl tcur st)
    (hcase : (∃ e0, mappingRec st c = some (b, e0) ∧ t ≤ e0)
      ∨ (∀ bm e0, mappingRec st c = some (bm, e0) → e0 < t)) :
    Inv ttl t (AddActiveRequestToBackend st t ttl b c) := by
  obtain ⟨hEnt, hRec⟩ := hinv
  constructor
  · intro c' b' s he
    rcases (hasEntry_add_iff st t ttl b c b' c' s).mp he with ⟨hb, hc, hs⟩ | ⟨he', hnot⟩
    · refine ⟨by omega, b, t + ttl, ?_, by omega, ?_⟩
      · rw [hc]
        exact mappingRec_add_same st t ttl b c
      · intro hbb
        exact absurd hb hbb
    · obtain ⟨hs, bm0, e0, hrec0, hse0, hstr0⟩ := hEnt c' b' s he'
      by_cases hc : c' = c
      · have hrec0' : mappingRec st c = some (bm0, e0) := by
          rw [← hc]
          exact hrec0
        have hbound := hRec c' bm0 e0 hrec0
        refine ⟨le_trans hs hle, b, t + ttl, ?_, by omega, ?_⟩
        · rw [hc]
          exact mappingRec_add_same st t ttl b c
        · intro hbb
          rcases hcase with ⟨e0', hrec', ht'⟩ | hall
          · rw [hrec0', Option.some.injEq, Prod.mk.injEq] at hrec'
            obtain ⟨hbm, he0⟩ := hrec'
            have hb' : b' ≠ bm0 := by
              rw [hbm]
              exact hbb
            have hstr := hstr0 hb'
            omega
          · have := hall bm0 e0 hrec0'
            omega
      · have hmap := mappingRec_add_other st t ttl b c c' hc
        refine ⟨le_trans hs hle, bm0, e0, ?_, hse0, hstr0⟩
        rw [hmap]
        exact hrec0
  · intro c' bm e hrec
    by_cases hc : c' = c
    · rw [hc, mappingRec_add_same, Option.some.injEq, Prod.mk.injEq] at hrec
      obtain ⟨_, he⟩ := hrec
      omega
    · rw [mappingRec_add_other st t ttl b c c' hc] at hrec
      have := hRec c' bm e hrec
      omega

theorem stepStart_preserves (ttl tcur t : Int) (hle : tcur ≤ t)
    (st : RedisState) (c sel : String) (hinv : Inv ttl tcur st) :
    Inv ttl t (stepStart st ttl t c sel) := by
  unfold stepStart
  rw [kvGet_clientKey]
  cases hm : mappingRec st c with
  | none =>
    exact add_preserves ttl tcur t hle st sel c hinv
      (Or.inr (fun bm e0 h => by rw [hm] at h; cases h))
  | some p =>
    obtain ⟨bm, e0⟩ := p
    by_cases ht : t ≤ e0
    · simp only [ht, if_true]
      exact add_preserves ttl tcur t hle st bm c hinv (Or.inl ⟨e0, hm, ht⟩)
    · simp only [ht, if_false]
      refine add_preserves ttl tcur t hle st sel c hinv (Or.inr ?_)
      intro bm' e0' h
      rw [hm] at h
      have he0 : e0 = e0' := congrArg Prod.snd (Option.some.inj h)
      omega

theorem stepStop_preserves (ttl tcur t : Int) (hle : tcur ≤ t) (st : RedisState)
    (c : String) (hinv : Inv ttl tcur st) : Inv ttl t (stepStop st t c) := by
  obtain ⟨hEnt, hRec⟩ := hinv
  constructor
  · intro c' b' s he
    obtain ⟨hs, bm, e, hrec, hse, hstr⟩ :=
      hEnt c' b' s (hasEntry_stepStop_sub st t c b' c' s he)
    refine ⟨le_trans hs hle, bm, e, ?_, hse, hstr⟩
    rw [mappingRec_stepStop]
    exact hrec
  · intro c' bm e hrec
    rw [mappingRec_stepStop] at hrec
    have := hRec c' bm e hrec
    omega

theorem run_inv (ttl : Int) {t0 : Int} {st : RedisState} {evs : List Event}
    (hwf : Wf ttl t0 st evs) :
    Inv ttl t0 st → ∀ now, t0 ≤ now → (∀ ev ∈ evs, Event.time ev ≤ now) →
      Inv ttl now (runEvents ttl st evs) := by
  induction hwf with
  | nil t0 st =>
    intro hinv now hle _
    exact hinv.mono hle
  | start t0 t st c sel rest hle hrest ih =>
    intro hinv now hnow htimes
    have ht : t ≤ now := by
      have := htimes (Event.start t c sel) (List.mem_cons_self _ _)
      simpa [Event.time] using this
    exact ih (stepStart_preserves ttl t0 t hle st c sel hinv) now ht
      (fun e he => htimes e (List.mem_cons_of_mem _ he))
  | stop t0 t st c rest hle hrest ih =>
    intro hinv now hnow htimes
    have ht : t ≤ now := by
      have := htimes (Event.stop t c) (List.mem_cons_self _ _)
      simpa [Event.time] using this
    exact ih (stepStop_preserves ttl t0 t hle st c hinv) now ht
      (fun e he => htimes e (List.mem_cons_of_mem _ he))

/-- C9: over every sequence of successful start and stop operations run
sequentially from the empty store with nondecreasing times, each client
is a live member (score within `[now - TTL, now]`) of the active set of
at most one backend at every time `now` past the last operation.  While
the forward mapping lives, every entry of the client sits on the mapped
backend; as soon as it has expired (strictly after its expiry instant,
as Redis serves keys through that instant) every remaining entry is
already outside the inclusive `ZCOUNT` window, so no instant sees the
client live on two backends. -/
theorem client_live_on_single_backend (ttl t0 now : Int) (evs : List Event)
    (hwf : Wf ttl t0 RedisState.empty evs) (h0 : t0 ≤ now)
    (htimes : ∀ ev ∈ evs, Event.time ev ≤ now)
    (c b1 b2 : String) (s1 s2 : Int)
    (h1 : hasEntry (runEvents ttl RedisState.empty evs) b1 c s1)
    (h2 : hasEntry (runEvents ttl RedisState.empty evs) b2 c s2)
    (hl1 : now - ttl ≤ s1) (hl1' : s1 ≤ now)
    (hl2 : now - ttl ≤ s2) (hl2' : s2 ≤ now) : b1 = b2 := by
  obtain ⟨hEnt, hRec⟩ :=
    run_inv ttl hwf (empty_inv ttl t0) now h0 htimes
  obtain ⟨hs1, bm, e, hrec, hse1, hstr1⟩ := hEnt c b1 s1 h1
  obtain ⟨hs2, bm2, e2, hrec2, hse2, hstr2⟩ := hEnt c b2 s2 h2
  rw [hrec, Option.some.injEq, Prod.mk.injEq] at hrec2
  obtain ⟨hbm2, he2⟩ := hrec2
  have hbound := hRec c bm e hrec
  have hb1 : b1 = bm := by
    by_contra hne
    have := hstr1 hne
    omega
  have hb2 : b2 = bm := by
    by_contra hne
    have hne2 : b2 ≠ bm2 := by
      rw [← hbm2]
      exact hne
    have := hstr2 hne2
    omega
  rw [hb1, hb2]

/-- Witness for C9: a single successful start; the client's only live
entries at time 5 are on the one backend the start recorded. -/
theorem client_live_on_single_backend_witness :
    hasEntry (runEvents 10 RedisState.empty [Event.start 0 "c" "10.0.0.1"])
      "10.0.0.1" "c" 0
    ∧ "10.0.0.1" = "10.0.0.1" :=
  ⟨by decide,
   client_live_on_single_backend 10 0 5 [Event.start 0 "c" "10.0.0.1"]
     (Wf.start 0 0 RedisState.empty "c" "10.0.0.1" [] (by decide)
       (Wf.nil 0 (stepStart RedisState.empty 10 0 "c" "10.0.0.1")))
     (by decide) (by decide) "c" "10.0.0.1" "10.0.0.1" 0 0
     (by decide) (by decide) (by decide) (by decide) (by decide) (by decide)⟩

end Router


